import Mathlib

/-!
Verification of the galette JEDEC fuse-map serializer.

This file gives a shallow embedding of the two encoders found in the
repository:

* namespace JW embeds src/jedec_writer.rs (the table / iterator based
  encoder with the skip optimization);
* namespace LIB embeds src/lib.rs (the index based encoder; a Rust
  panic, including an out-of-bounds slice index, is modelled by
  Option.none).

Output buffers are modelled as List Char; every character the encoders
emit is 7-bit ASCII (plus the 0x02 and 0x03 control bytes), so the byte
values summed by the whole-file checksum coincide with the character
code points.  Machine integers are modelled as Nat with explicit
reductions modulo 65536 where the source wraps 16-bit arithmetic.
-/

namespace Galette

/-! ### Formatting helpers (Rust format strings) -/
/-- Little-endian base-b digits of n, empty for 0; the fuel argument
bounds the recursion and any fuel of at least n gives the digits. -/
def toBaseAux (b : Nat) : Nat → Nat → List Nat
  | 0, _ => []
  | fuel + 1, n => if n = 0 then [] else n % b :: toBaseAux b fuel (n / b)

/-- Pad a little-endian digit list with zeros up to width 4 (used for
the minimum-width-4 behavior of the 04 format specifiers). -/
def padMin4 (ds : List Nat) : List Nat :=
  if ds.length < 4 then ds ++ List.replicate (4 - ds.length) 0 else ds

/-- Digit to character, lowercase for values 10 and up. -/
def digitChar (n : Nat) : Char :=
  if n < 10 then Char.ofNat (48 + n) else Char.ofNat (87 + n)

/-- Rust formatting with the 04x specifier: lowercase hex, zero padded
to a minimum of four digits, longer when the value needs more digits. -/
def hexMin4 (n : Nat) : List Char :=
  ((padMin4 (toBaseAux 16 n n)).reverse).map digitChar

/-- Rust formatting with the 04 specifier: decimal, zero padded to a
minimum of four digits. -/
def decMin4 (n : Nat) : List Char :=
  ((padMin4 (toBaseAux 10 n n)).reverse).map digitChar

/-- Sum of the byte values of the buffer (all emitted characters are
ASCII, so UTF-8 byte values equal code points). -/
def charSum (cs : List Char) : Nat := (cs.map Char.toNat).sum

/-- One character per fuse bit. -/
def bitChar (b : Bool) : Char := if b then '1' else '0'

/-- The star-L prefix of a fuse line at a given bit offset. -/
def starL (idx : Nat) : List Char := '*' :: 'L' :: (decMin4 idx ++ [' '])

/-- A complete fuse line: star-L prefix, one character per bit, newline. -/
def line (idx : Nat) (bits : List Bool) : List Char :=
  starL idx ++ bits.map bitChar ++ ['\n']

/-! ### Chunking (itertools chunks) -/
/-- Fuel-driven worker for chunks. -/
def chunksAux (n : Nat) : Nat → List Bool → List (List Bool)
  | 0, _ => []
  | _ + 1, [] => []
  | fuel + 1, x :: xs => (x :: xs).take n :: chunksAux n fuel ((x :: xs).drop n)

/-- Break a list into consecutive chunks of n elements, the last chunk
possibly shorter, as the itertools chunks adaptor does. -/
def chunks (n : Nat) (l : List Bool) : List (List Bool) := chunksAux n l.length l

/-! ### Interleaving (itertools interleave) -/
/-- Alternate elements of the two lists starting with the first list;
when one list runs out the rest of the other follows, as the itertools
interleave adaptor does. -/
def interleave : List Bool → List Bool → List Bool
  | [], ys => ys
  | x :: xs, [] => x :: xs
  | x :: xs, y :: ys => x :: y :: interleave xs ys

/-- The config struct; only jedec_sec_bit is consulted by the encoder. -/
structure Config where
  gen_fuse : Int
  gen_chip : Int
  gen_pin : Int
  jedec_sec_bit : Int
  jedec_fuse_chk : Int

/-! Fixed header text fragments (each literal copied from the source). -/
def stxChars : List Char := "\x02\n".toList

def usedChars : List Char := "Used Program:   GALasm 2.1\n".toList

def asmChars : List Char := "GAL-Assembler:  GALasm 2.1\n".toList

def dev16Chars : List Char := "Device:         GAL16V8\n\n".toList

def dev20Chars : List Char := "Device:         GAL20V8\n\n".toList

def dev22Chars : List Char := "Device:         GAL22V10\n\n".toList

def dev20raChars : List Char := "Device:         GAL20RA10\n\n".toList

def f0Chars : List Char := "*F0\n".toList

def g0Chars : List Char := "*G0\n".toList

def g1Chars : List Char := "*G1\n".toList

def qf16Chars : List Char := "*QF2194\n".toList

def qf20Chars : List Char := "*QF2706\n".toList

def qf22Chars : List Char := "*QF5892\n".toList

def qf20raChars : List Char := "*QF3274\n".toList

def starNlChars : List Char := "*\n".toList

end Galette

namespace Galette.JW

/-! ### CheckSummer, from src/jedec_writer.rs lines 26-56 -/
/-- The running fuse-checksum accumulator state: bit position inside
the current byte, the partially assembled byte, and the 16-bit sum. -/
structure CheckSummer where
  bit_num : Nat
  byte : Nat
  sum : Nat
deriving DecidableEq, Repr

def CheckSummer.new : CheckSummer := ⟨0, 0, 0⟩

/-- Feed one bit: set bit bit_num of the partial byte if the bit is on,
and on the eighth bit fold the byte into the 16-bit wrapping sum and
reset.  Wrapping u16 addition is modelled by reduction mod 65536. -/
def CheckSummer.add (c : CheckSummer) (bit : Bool) : CheckSummer :=
  let byte := if bit then c.byte ||| (1 <<< c.bit_num) else c.byte
  if c.bit_num + 1 = 8 then
    ⟨0, 0, (c.sum + byte) % 65536⟩
  else
    ⟨c.bit_num + 1, byte, c.sum⟩

/-- Checksum readout: the sum plus the trailing partial byte, reduced
to 16 bits. -/
def CheckSummer.get (c : CheckSummer) : Nat := (c.sum + c.byte) % 65536

/-! ### Specification-level checksum: pack 8 bits per byte (bit index 0
has value 1, bit index 7 has value 128), sum the bytes including a
trailing partial byte, reduce modulo 65536. -/
/-- Value of a byte given as its list of bits, least significant first. -/
def byteVal : List Bool → Nat
  | [] => 0
  | b :: bs => (if b then 1 else 0) + 2 * byteVal bs

/-- The checksum a bit stream should produce: bytes of 8 bits (the last
one possibly partial), summed modulo 65536. -/
def specChecksum (bits : List Bool) : Nat :=
  (((chunks 8 bits).map byteVal).sum) % 65536

/-- Helper closed form: the total byte-value mass contributed by a bit
stream entering at bit position k of a partial byte of value b. -/
def sumFrom : Nat → Nat → List Bool → Nat
  | _, b, [] => b
  | k, b, bit :: rest =>
    let b2 := if bit then b + 2 ^ k else b
    if k + 1 = 8 then b2 + sumFrom 0 0 rest else sumFrom (k + 1) b2 rest

/-! ### Chip profiles, from src/jedec_writer.rs lines 7-10 and 129-134
and the chips module referenced there (a closed enum with exactly the
four variants matched in make_jedec). -/
inductive Chip where
  | GAL16V8
  | GAL20V8
  | GAL22V10
  | GAL20RA10
deriving DecidableEq, Repr

/-- Number of fuses per row (ROW_LEN constants). -/
def row_len : Chip → Nat
  | Chip.GAL16V8 => 32
  | Chip.GAL20V8 => 40
  | Chip.GAL22V10 => 44
  | Chip.GAL20RA10 => 40

def deviceChars : Chip → List Char
  | Chip.GAL16V8 => dev16Chars
  | Chip.GAL20V8 => dev20Chars
  | Chip.GAL22V10 => dev22Chars
  | Chip.GAL20RA10 => dev20raChars

def qfChars : Chip → List Char
  | Chip.GAL16V8 => qf16Chars
  | Chip.GAL20V8 => qf20Chars
  | Chip.GAL22V10 => qf22Chars
  | Chip.GAL20RA10 => qf20raChars

/-- The header part of the output, pushed by make_jedec before the fuse
matrix (src/jedec_writer.rs lines 136-167). -/
def headerChars (c : Chip) (config : Config) : List Char :=
  stxChars ++ usedChars ++ asmChars ++ deviceChars c ++ f0Chars
    ++ (if config.jedec_sec_bit ≠ 0 then g1Chars else g0Chars) ++ qfChars c

/-! ### FuseBuilder, from src/jedec_writer.rs lines 62-109 -/
/-- The row writer: the output buffer (the builder mutably borrows the
whole buffer, header included), the checksum accumulator and the
running bit offset. -/
structure FuseBuilder where
  buf : List Char
  checksum : CheckSummer
  idx : Nat
deriving DecidableEq, Repr

/-- FuseBuilder construction over an existing buffer. -/
def FuseBuilder.init (buf : List Char) : FuseBuilder :=
  ⟨buf, CheckSummer.new, 0⟩

/-- Emit a fuse line: the star-L prefix with the current offset, then
per bit one character into the buffer, the bit into the checksum, and
an offset increment; finally a newline (add_iter). -/
def FuseBuilder.addIter (fb : FuseBuilder) (data : List Bool) : FuseBuilder :=
  let fb1 : FuseBuilder := { fb with buf := fb.buf ++ starL fb.idx }
  let fb2 := data.foldl
    (fun (b : FuseBuilder) (bit : Bool) =>
      ⟨b.buf ++ [bitChar bit], b.checksum.add bit, b.idx + 1⟩) fb1
  { fb2 with buf := fb2.buf ++ ['\n'] }

/-- add delegates to add_iter. -/
def FuseBuilder.add (fb : FuseBuilder) (data : List Bool) : FuseBuilder :=
  fb.addIter data

/-- Skip a row: per bit only the checksum and the offset advance, the
buffer is untouched (skip_iter). -/
def FuseBuilder.skipIter (fb : FuseBuilder) (data : List Bool) : FuseBuilder :=
  data.foldl
    (fun (b : FuseBuilder) (bit : Bool) =>
      ⟨b.buf, b.checksum.add bit, b.idx + 1⟩) fb

/-- Append the star-C fuse checksum line (the checksum method). -/
def FuseBuilder.checksumLine (fb : FuseBuilder) : FuseBuilder :=
  { fb with buf := fb.buf ++ '*' :: 'C' :: (hexMin4 fb.checksum.get ++ ['\n']) }

/-- The emit-or-skip test used by make_jedec on each row: emit exactly
when some bit of the row is set (check_iter.any). -/
def rowDecision (row : List Bool) : Bool := row.any id

/-- The row loop of make_jedec parameterized by the emit decision; the
source uses rowDecision. -/
def processRows (d : List Bool → Bool) (fb : FuseBuilder)
    (rows : List (List Bool)) : FuseBuilder :=
  rows.foldl (fun fb row => if d row then fb.addIter row else fb.skipIter row) fb

/-- The buffer text the matrix loop produces: one line per emitted row,
nothing for a skipped row, offsets advancing by the row length. -/
def matrixBuf (d : List Bool → Bool) : Nat → List (List Bool) → List Char
  | _, [] => []
  | idx, r :: rs =>
    (if d r then line idx r else []) ++ matrixBuf d (idx + r.length) rs

/-- The total byte sum of k emitted lines of the same row content r
starting at offset idx, advancing by the row length each line. -/
def lineSumsAux (r : List Bool) : Nat → Nat → Nat
  | 0, _ => 0
  | k + 1, idx => charSum (line idx r) + lineSumsAux r k (idx + r.length)

/-! ### make_jedec, from src/jedec_writer.rs lines 117-217 -/
/-- The bits the XOR and S1 section feeds to the builder: the XOR array
alone unless the chip is GAL22V10, where XOR and S1 interleave. -/
def xorS1Bits (c : Chip) (gal_xor gal_s1 : List Bool) : List Bool :=
  if c ≠ Chip.GAL22V10 then gal_xor else interleave gal_xor gal_s1

/-- The trailing control bits fed to the builder for chips that carry
the AC1, PT, SYN and AC0 fields, empty for the others. -/
def acBits (c : Chip) (gal_ac1 gal_pt : List Bool) (gal_syn gal_ac0 : Bool) :
    List Bool :=
  if c = Chip.GAL16V8 ∨ c = Chip.GAL20V8 then
    gal_ac1 ++ gal_pt ++ [gal_syn, gal_ac0]
  else []

/-- The fuse-section block of make_jedec (the inner scope of lines
169-205 up to but not including the checksum line): rows, XOR and S1
section, signature and, per profile, AC1, PT, SYN and AC0. -/
def fuseSectionState (d : List Bool → Bool) (c : Chip) (buf : List Char)
    (gal_fuses gal_xor gal_s1 gal_sig gal_ac1 gal_pt : List Bool)
    (gal_syn gal_ac0 : Bool) : FuseBuilder :=
  let fb := FuseBuilder.init buf
  let fb := processRows d fb (chunks (row_len c) gal_fuses)
  let fb := if c ≠ Chip.GAL22V10 then fb.add gal_xor
    else fb.addIter (interleave gal_xor gal_s1)
  let fb := fb.add gal_sig
  if c = Chip.GAL16V8 ∨ c = Chip.GAL20V8 then
    (((fb.add gal_ac1).add gal_pt).add [gal_syn]).add [gal_ac0]
  else fb

/-- make_jedec with the row decision abstracted: the source fixes the
decision to rowDecision, and forcing the decision true on every row is
the force-emit variant the skip-invariance properties compare with. -/
def makeJedecWith (d : List Bool → Bool) (gal_type : Chip) (config : Config)
    (gal_fuses gal_xor gal_s1 gal_sig gal_ac1 gal_pt : List Bool)
    (gal_syn gal_ac0 : Bool) : List Char :=
  let buf := headerChars gal_type config
  let fb := (fuseSectionState d gal_type buf gal_fuses gal_xor gal_s1 gal_sig
    gal_ac1 gal_pt gal_syn gal_ac0).checksumLine
  let buf := fb.buf ++ starNlChars ++ ['\x03']
  buf ++ hexMin4 (charSum buf) ++ ['\n']

/-- The encoder of src/jedec_writer.rs. -/
def make_jedec (gal_type : Chip) (config : Config)
    (gal_fuses gal_xor gal_s1 gal_sig gal_ac1 gal_pt : List Bool)
    (gal_syn gal_ac0 : Bool) : List Char :=
  makeJedecWith rowDecision gal_type config gal_fuses gal_xor gal_s1 gal_sig
    gal_ac1 gal_pt gal_syn gal_ac0

/-! ### Decomposition of the output into explicit sections -/
/-- The AC1, PT, SYN and AC0 lines for the chips that carry them, at
base offset o; empty for the other chips. -/
def acLines (c : Chip) (gal_ac1 gal_pt : List Bool) (gal_syn gal_ac0 : Bool)
    (o : Nat) : List Char :=
  if c = Chip.GAL16V8 ∨ c = Chip.GAL20V8 then
    line o gal_ac1 ++ line (o + gal_ac1.length) gal_pt
      ++ line (o + gal_ac1.length + gal_pt.length) [gal_syn]
      ++ line (o + gal_ac1.length + gal_pt.length + 1) [gal_ac0]
  else []

/-- Everything the encoder emits after the matrix section: the XOR and
S1 line, the signature line, the optional AC lines, the star-C fuse
checksum line, the closing star line and the end-of-text byte.  All
line offsets depend only on the length of the main fuse array and the
section lengths, and the star-C value is the specification checksum of
every bit fed to the builder. -/
def tailChars (c : Chip) (gal_fuses gal_xor gal_s1 gal_sig gal_ac1 gal_pt :
    List Bool) (gal_syn gal_ac0 : Bool) : List Char :=
  line gal_fuses.length (xorS1Bits c gal_xor gal_s1)
    ++ line (gal_fuses.length + (xorS1Bits c gal_xor gal_s1).length) gal_sig
    ++ acLines c gal_ac1 gal_pt gal_syn gal_ac0
        (gal_fuses.length + (xorS1Bits c gal_xor gal_s1).length
          + gal_sig.length)
    ++ '*' :: 'C' :: (hexMin4 (specChecksum (gal_fuses
          ++ xorS1Bits c gal_xor gal_s1 ++ gal_sig
          ++ acBits c gal_ac1 gal_pt gal_syn gal_ac0)) ++ ['\n'])
    ++ starNlChars ++ ['\x03']

/-- The output body from the start-of-text byte through the end-of-text
byte: header, matrix lines, tail. -/
def bodyChars (d : List Bool → Bool) (c : Chip) (config : Config)
    (gal_fuses gal_xor gal_s1 gal_sig gal_ac1 gal_pt : List Bool)
    (gal_syn gal_ac0 : Bool) : List Char :=
  headerChars c config
    ++ matrixBuf d 0 (chunks (row_len c) gal_fuses)
    ++ tailChars c gal_fuses gal_xor gal_s1 gal_sig gal_ac1 gal_pt
        gal_syn gal_ac0

end Galette.JW

namespace Galette.LIB

/-! ### The index-based encoder of src/lib.rs.  Rust panics (the
panic on an unrecognized chip tag and any out-of-bounds slice index)
are modelled by Option.none. -/
/-- The CheckSummer of src/lib.rs lines 61-91; add takes a byte value
and sets the bit exactly when the value is nonzero.  The u16 addition
with the 0xffff mask is modelled by reduction mod 65536. -/
structure CheckSummer where
  bit_num : Nat
  byte : Nat
  sum : Nat
deriving DecidableEq, Repr

def CheckSummer.new : CheckSummer := ⟨0, 0, 0⟩

def CheckSummer.add (c : CheckSummer) (bit : Nat) : CheckSummer :=
  let byte := if bit ≠ 0 then c.byte ||| (1 <<< c.bit_num) else c.byte
  if c.bit_num + 1 = 8 then
    ⟨0, 0, (c.sum + byte) % 65536⟩
  else
    ⟨c.bit_num + 1, byte, c.sum⟩

def CheckSummer.get (c : CheckSummer) : Nat := (c.sum + c.byte) % 65536

/-- One character per byte-valued fuse entry. -/
def bitCharN (v : Nat) : Char := if v ≠ 0 then '1' else '0'

/-- The scan of one row (lines 143-149): up to k reads at increasing
indices; stops with flag 1 at the first nonzero entry, otherwise
returns flag 0 with the index advanced past the row. -/
def scanRow (fuses : List Nat) : Nat → Nat → Option (Nat × Nat)
  | 0, b2 => some (0, b2)
  | k + 1, b2 =>
    match fuses.get? b2 with
    | none => none
    | some v => if v ≠ 0 then some (1, b2) else scanRow fuses k (b2 + 1)

/-- The emit loop of one row (lines 154-157): k reads from the row
start, one character per entry. -/
def emitRow (fuses : List Nat) : Nat → Nat → Option (List Char × Nat)
  | 0, b => some ([], b)
  | k + 1, b =>
    match fuses.get? b with
    | none => none
    | some v =>
      match emitRow fuses k (b + 1) with
      | none => none
      | some (cs, b2) => some (bitCharN v :: cs, b2)

/-- The row loop (lines 138-163), threading the buffer, bitnum,
bitnum2 and flag. -/
def rowsLoop (fuses : List Nat) (maxf : Nat) :
    Nat → List Char → Nat → Nat → Nat → Option (List Char × Nat × Nat × Nat)
  | 0, buf, bitnum, bitnum2, flag => some (buf, bitnum, bitnum2, flag)
  | m + 1, buf, bitnum, _, _ =>
    match scanRow fuses (maxf + 1) bitnum with
    | none => none
    | some (flag, bitnum2) =>
      if flag ≠ 0 then
        match emitRow fuses (maxf + 1) bitnum with
        | none => none
        | some (cs, bitnum3) =>
          rowsLoop fuses maxf m (buf ++ starL bitnum ++ cs ++ ['\n'])
            bitnum3 bitnum2 flag
      else
        rowsLoop fuses maxf m buf bitnum2 bitnum2 flag

/-- A fixed-count sequential emit loop over an array starting at an
index (used for the signature, AC1 and PT sections). -/
def seqLoop (arr : List Nat) : Nat → Nat → Option (List Char)
  | 0, _ => some []
  | k + 1, i =>
    match arr.get? i with
    | none => none
    | some v =>
      match seqLoop arr k (i + 1) with
      | none => none
      | some cs => some (bitCharN v :: cs)

/-- The XOR loop (lines 172-181): one character per XOR entry, with
the S1 entry of the same index interleaved when the chip is the
GAL22V10. -/
def xorLoop (x s1 : List Nat) (is22 : Bool) : Nat → Nat → Option (List Char)
  | 0, _ => some []
  | k + 1, n =>
    match x.get? n with
    | none => none
    | some vx =>
      if is22 then
        match s1.get? n with
        | none => none
        | some vs =>
          match xorLoop x s1 is22 k (n + 1) with
          | none => none
          | some cs => some (bitCharN vx :: bitCharN vs :: cs)
      else
        match xorLoop x s1 is22 k (n + 1) with
        | none => none
        | some cs => some (bitCharN vx :: cs)

/-- A fixed-count checksum loop over an array (lines 227-241). -/
def checkLoop (arr : List Nat) : Nat → Nat → CheckSummer → Option CheckSummer
  | 0, _, cs => some cs
  | k + 1, i, cs =>
    match arr.get? i with
    | none => none
    | some v => checkLoop arr k (i + 1) (cs.add v)

/-- The header of src/lib.rs lines 103-130: start-of-text, program
lines, device line and fuse-count line selected by the raw tag, the
default-fuse line and the security-bit line. -/
def headerChars (gal_type : Nat) (config : Config) : List Char :=
  stxChars ++ usedChars ++ asmChars
    ++ (if gal_type = 1 then dev16Chars else if gal_type = 2 then dev20Chars
        else if gal_type = 3 then dev22Chars else dev20raChars)
    ++ f0Chars ++ (if config.jedec_sec_bit ≠ 0 then g1Chars else g0Chars)
    ++ (if gal_type = 1 then qf16Chars else if gal_type = 2 then qf20Chars
        else if gal_type = 3 then qf22Chars else qf20raChars)

/-- The part of src/lib.rs make_jedec following the row loop (lines
165-258), taking the row-loop outcome as its final argument. -/
def afterRows (xor_size gal_type : Nat)
    (fuses gal_xor gals1 gal_sig gal_ac1 gal_pt : List Nat)
    (gal_syn gal_ac0 : Nat) :
    Option (List Char × Nat × Nat × Nat) → Option (List Char)
  | none => none
  | some (buf, bitnumA, bitnum2, flag) =>
    let bitnum := if flag = 0 then bitnum2 else bitnumA
    match xorLoop gal_xor gals1 (gal_type = 3) xor_size 0 with
    | none => none
    | some xchars =>
      let buf := buf ++ starL bitnum ++ xchars ++ ['\n']
      let bitnum := bitnum + (if gal_type = 3 then 2 * xor_size else xor_size)
      match seqLoop gal_sig 64 0 with
      | none => none
      | some schars =>
        let buf := buf ++ starL bitnum ++ schars ++ ['\n']
        let bitnum := bitnum + 64
        match (if gal_type = 1 ∨ gal_type = 2 then
            match seqLoop gal_ac1 8 0 with
            | none => none
            | some achars =>
              match seqLoop gal_pt 64 0 with
              | none => none
              | some pchars => some (starL bitnum ++ achars ++ ['\n']
                  ++ starL (bitnum + 8) ++ pchars ++ ['\n']
                  ++ starL (bitnum + 8 + 64) ++ [bitCharN gal_syn] ++ ['\n']
                  ++ starL (bitnum + 8 + 64 + 1) ++ [bitCharN gal_ac0]
                  ++ ['\n'])
          else some []) with
        | none => none
        | some acChars =>
          let buf := buf ++ acChars
          match (if gal_type = 1 then
              match checkLoop fuses 2048 0 CheckSummer.new with
              | none => none
              | some cs1 =>
              match checkLoop gal_xor 8 0 cs1 with
              | none => none
              | some cs2 =>
              match checkLoop gal_sig 64 0 cs2 with
              | none => none
              | some cs3 =>
              match checkLoop gal_ac1 8 0 cs3 with
              | none => none
              | some cs4 =>
              match checkLoop gal_pt 64 0 cs4 with
              | none => none
              | some cs5 => some (((cs5.add gal_syn).add gal_ac0).get)
            else some 0) with
          | none => none
          | some checksum =>
            let buf := buf ++ '*' :: 'C' :: (hexMin4 checksum ++ ['\n'])
              ++ starNlChars ++ ['\x03']
            some (buf ++ hexMin4 (charSum buf % 65536) ++ ['\n'])

/-- The body of src/lib.rs make_jedec after the chip-tag dispatch,
taking the per-chip constants as arguments: run the row loop over the
header buffer and hand its outcome to afterRows. -/
def go (max_fuse_addr row_size xor_size gal_type : Nat) (config : Config)
    (fuses gal_xor gals1 gal_sig gal_ac1 gal_pt : List Nat)
    (gal_syn gal_ac0 : Nat) : Option (List Char) :=
  afterRows xor_size gal_type fuses gal_xor gals1 gal_sig gal_ac1 gal_pt
    gal_syn gal_ac0
    (rowsLoop fuses max_fuse_addr row_size (headerChars gal_type config) 0 0 0)

/-- The encoder of src/lib.rs lines 93-259.  The chip tag is a raw
integer; tags other than 1 to 4 hit the panic arms of the source
matches, modelled as none. -/
def make_jedec (gal_type : Nat) (config : Config)
    (fuses gal_xor gals1 gal_sig gal_ac1 gal_pt : List Nat)
    (gal_syn gal_ac0 : Nat) : Option (List Char) :=
  if gal_type = 1 then
    go 31 64 8 gal_type config fuses gal_xor gals1 gal_sig gal_ac1 gal_pt
      gal_syn gal_ac0
  else if gal_type = 2 then
    go 39 64 8 gal_type config fuses gal_xor gals1 gal_sig gal_ac1 gal_pt
      gal_syn gal_ac0
  else if gal_type = 3 then
    go 43 132 10 gal_type config fuses gal_xor gals1 gal_sig gal_ac1 gal_pt
      gal_syn gal_ac0
  else if gal_type = 4 then
    go 39 80 10 gal_type config fuses gal_xor gals1 gal_sig gal_ac1 gal_pt
      gal_syn gal_ac0
  else none

end Galette.LIB

namespace Galette

/-! ### Concrete inputs used by the closed evaluation theorems -/
/-- All config flags zero: the security bit line is the star-G0 line. -/
def cfg0 : Config := ⟨0, 0, 0, 0, 0⟩

def zfuses : List Bool := List.replicate 2048 false

def zxor : List Bool := List.replicate 8 false

def zsig : List Bool := List.replicate 64 false

def zac1 : List Bool := List.replicate 8 false

def zpt : List Bool := List.replicate 64 false

def ofuses : List Bool := List.replicate 2048 true

def oxor : List Bool := List.replicate 8 true

def osig : List Bool := List.replicate 64 true

def oac1 : List Bool := List.replicate 8 true

def opt : List Bool := List.replicate 64 true

end Galette

namespace Galette

theorem chunksAux_nil (n : Nat) (fuel : Nat) : chunksAux n fuel [] = [] := by
  cases fuel <;> simp [chunksAux]

theorem chunksAux_fuel (n : Nat) (hn : 0 < n) :
    ∀ fuel₁ fuel₂ (l : List Bool), l.length ≤ fuel₁ → l.length ≤ fuel₂ →
      chunksAux n fuel₁ l = chunksAux n fuel₂ l := by
  intro fuel₁
  induction fuel₁ with
  | zero =>
    intro fuel₂ l h1 _
    have : l = [] := List.eq_nil_of_length_eq_zero (Nat.le_zero.mp h1)
    subst this
    simp [chunksAux_nil, chunksAux]
  | succ f ih =>
    intro fuel₂ l h1 h2
    cases l with
    | nil => simp [chunksAux_nil]
    | cons x xs =>
      cases fuel₂ with
      | zero => simp at h2
      | succ f2 =>
        simp only [chunksAux]
        have hlen : ((x :: xs).drop n).length ≤ f := by
          simp only [List.length_drop, List.length_cons] at *
          omega
        have hlen2 : ((x :: xs).drop n).length ≤ f2 := by
          simp only [List.length_drop, List.length_cons] at *
          omega
        rw [ih _ _ hlen hlen2]

theorem chunks_nil (n : Nat) : chunks n [] = [] := by simp [chunks, chunksAux]

theorem chunks_cons (n : Nat) (hn : 0 < n) (l : List Bool) (hl : l ≠ []) :
    chunks n l = l.take n :: chunks n (l.drop n) := by
  cases l with
  | nil => exact absurd rfl hl
  | cons x xs =>
    show chunksAux n (x :: xs).length (x :: xs) = _
    simp only [List.length_cons, chunksAux]
    congr 1
    apply chunksAux_fuel n hn
    · simp only [List.length_drop, List.length_cons]; omega
    · rfl

theorem chunks_join (n : Nat) (hn : 0 < n) :
    ∀ (k : Nat) (l : List Bool), l.length ≤ k → (chunks n l).flatten = l := by
  intro k
  induction k with
  | zero =>
    intro l h
    have : l = [] := List.eq_nil_of_length_eq_zero (Nat.le_zero.mp h)
    subst this
    simp [chunks_nil]
  | succ k ih =>
    intro l h
    cases l with
    | nil => simp [chunks_nil]
    | cons x xs =>
      rw [chunks_cons n hn _ (by simp)]
      simp only [List.flatten_cons]
      rw [ih _ (by simp only [List.length_drop, List.length_cons] at *; omega)]
      exact List.take_append_drop n (x :: xs)

theorem chunks_append_multiple (n : Nat) (hn : 0 < n) (a : Bool) :
    ∀ (k : Nat) (rest : List Bool),
      chunks n (List.replicate (k * n) a ++ rest) =
        List.replicate k (List.replicate n a) ++ chunks n rest := by
  intro k
  induction k with
  | zero => intro rest; simp
  | succ k ih =>
    intro rest
    have hlist : List.replicate ((k + 1) * n) a ++ rest =
        List.replicate n a ++ (List.replicate (k * n) a ++ rest) := by
      rw [show (k + 1) * n = n + k * n from by ring, List.replicate_add,
        List.append_assoc]
    rw [hlist]
    rw [chunks_cons n hn _ (by
      intro hcontra
      have := congrArg List.length hcontra
      simp [List.length_replicate] at this
      omega)]
    rw [List.take_left' (List.length_replicate n a),
      List.drop_left' (List.length_replicate n a), ih]
    simp [List.replicate_succ]

theorem chunks_replicate (n : Nat) (hn : 0 < n) (a : Bool) (k : Nat) :
    chunks n (List.replicate (k * n) a) =
      List.replicate k (List.replicate n a) := by
  have h := chunks_append_multiple n hn a k []
  simpa [chunks_nil] using h

theorem charSum_append (a b : List Char) :
    charSum (a ++ b) = charSum a + charSum b := by
  simp [charSum]

/-! ### Digit-count facts about the hex formatter -/
theorem toBaseAux_length_le :
    ∀ (fuel v d : Nat), v < 16 ^ d → (toBaseAux 16 fuel v).length ≤ d := by
  intro fuel
  induction fuel with
  | zero => intro v d _; simp [toBaseAux]
  | succ f ih =>
    intro v d hv
    by_cases hv0 : v = 0
    · simp [toBaseAux, hv0]
    · cases d with
      | zero => simp at hv; omega
      | succ d =>
        simp only [toBaseAux, if_neg hv0, List.length_cons]
        have : v / 16 < 16 ^ d := by
          rw [Nat.div_lt_iff_lt_mul (by omega)]
          calc v < 16 ^ (d + 1) := hv
          _ = 16 ^ d * 16 := by ring
        have := ih (v / 16) d this
        omega

theorem toBaseAux_length_ge :
    ∀ (d fuel v : Nat), 16 ^ d ≤ v → v ≤ fuel →
      d + 1 ≤ (toBaseAux 16 fuel v).length := by
  intro d
  induction d with
  | zero =>
    intro fuel v hv hf
    simp only [pow_zero] at hv
    cases fuel with
    | zero => omega
    | succ f =>
      simp only [toBaseAux, if_neg (by omega : ¬ v = 0), List.length_cons]
      omega
  | succ d ih =>
    intro fuel v hv hf
    have hv0 : v ≠ 0 := by
      intro h
      rw [h] at hv
      have := Nat.one_le_pow (d + 1) 16 (by omega)
      omega
    cases fuel with
    | zero => omega
    | succ f =>
      simp only [toBaseAux, if_neg hv0, List.length_cons]
      have h16 : 16 ^ d ≤ v / 16 := by
        rw [Nat.le_div_iff_mul_le (by omega)]
        calc 16 ^ d * 16 = 16 ^ (d + 1) := by ring
        _ ≤ v := hv
      have hlt : v / 16 ≤ f := by
        have h16le : 16 ≤ v := le_trans (Nat.le_self_pow (by omega) 16) hv
        have := Nat.div_lt_self (by omega : 0 < v) (by omega : 1 < 16)
        omega
      have := ih f (v / 16) h16 hlt
      omega

theorem padMin4_length (ds : List Nat) :
    (padMin4 ds).length = max 4 ds.length := by
  unfold padMin4
  by_cases h : ds.length < 4
  · rw [if_pos h]
    simp [List.length_append, List.length_replicate]
    omega
  · rw [if_neg h]
    omega

theorem hexMin4_length_of_lt {v : Nat} (hv : v < 65536) :
    (hexMin4 v).length = 4 := by
  unfold hexMin4
  rw [List.length_map, List.length_reverse, padMin4_length]
  have := toBaseAux_length_le v v 4 (by norm_num; omega)
  omega

theorem hexMin4_length_of_ge {v : Nat} (hv : 65536 ≤ v) :
    5 ≤ (hexMin4 v).length := by
  unfold hexMin4
  rw [List.length_map, List.length_reverse, padMin4_length]
  have := toBaseAux_length_ge 4 v v (by norm_num; omega) le_rfl
  omega

theorem hexMin4_ne_of_gt {v : Nat} (hv : 65535 < v) :
    hexMin4 v ≠ hexMin4 (v % 65536) := by
  intro h
  have h1 := hexMin4_length_of_ge (v := v) (by omega)
  have h2 := hexMin4_length_of_lt (v := v % 65536) (Nat.mod_lt _ (by omega))
  rw [h] at h1
  omega

theorem interleave_eq_join_zipWith :
    ∀ (xs ys : List Bool), xs.length = ys.length →
      interleave xs ys = (List.zipWith (fun a b => [a, b]) xs ys).flatten := by
  intro xs
  induction xs with
  | nil =>
    intro ys h
    have : ys = [] := List.eq_nil_of_length_eq_zero h.symm
    subst this
    rfl
  | cons x xs ih =>
    intro ys h
    cases ys with
    | nil => simp at h
    | cons y ys =>
      simp only [List.length_cons] at h
      simp [interleave, ih ys (by omega)]

end Galette

namespace Galette.JW

theorem lor_pow_fin : ∀ (k : Fin 8) (b : Fin 128), b.val < 2 ^ k.val →
    b.val ||| (1 <<< k.val) = b.val + 2 ^ k.val := by decide

theorem lor_two_pow {k b : Nat} (hk : k < 8) (hb : b < 2 ^ k) :
    b ||| (1 <<< k) = b + 2 ^ k := by
  have hb128 : b < 128 := lt_of_lt_of_le hb (by
    calc 2 ^ k ≤ 2 ^ 7 := Nat.pow_le_pow_right (by omega) (by omega)
    _ = 128 := by norm_num)
  exact lor_pow_fin ⟨k, hk⟩ ⟨b, hb128⟩ hb

theorem foldl_add_get :
    ∀ (bits : List Bool) (k b s : Nat), k < 8 → b < 2 ^ k →
      (bits.foldl CheckSummer.add ⟨k, b, s⟩).get = (s + sumFrom k b bits) % 65536 := by
  intro bits
  induction bits with
  | nil => intro k b s _ _; simp [CheckSummer.get, sumFrom]
  | cons bit rest ih =>
    intro k b s hk hb
    have hb2 : (if bit then b ||| (1 <<< k) else b) = (if bit then b + 2 ^ k else b) := by
      cases bit <;> simp [lor_two_pow hk hb]
    simp only [List.foldl_cons, CheckSummer.add, hb2]
    by_cases h8 : k + 1 = 8
    · simp only [if_pos h8]
      rw [ih 0 0 _ (by omega) (by norm_num)]
      simp only [sumFrom, if_pos h8]
      rw [Nat.mod_add_mod, Nat.add_assoc]
    · simp only [if_neg h8]
      have hpow : (2 : Nat) ^ (k + 1) = 2 ^ k + 2 ^ k := by
        rw [pow_succ]; ring
      have hb3 : (if bit then b + 2 ^ k else b) < 2 ^ (k + 1) := by
        rw [hpow]
        cases bit
        · simpa using Nat.lt_of_lt_of_le hb (Nat.le_add_right _ _)
        · simpa using Nat.add_lt_add_right hb (2 ^ k)
      rw [ih (k + 1) _ s (by omega) hb3]
      simp [sumFrom, show ¬ k = 7 from by omega]

theorem sumFrom_eq_chunks :
    ∀ (bits : List Bool) (k b : Nat), k < 8 →
      sumFrom k b bits =
        b + 2 ^ k * byteVal (bits.take (8 - k))
          + ((chunks 8 (bits.drop (8 - k))).map byteVal).sum := by
  intro bits
  induction bits with
  | nil =>
    intro k b hk
    simp [sumFrom, byteVal, chunks_nil]
  | cons bit rest ih =>
    intro k b hk
    have h8k : 8 - k = (7 - k) + 1 := by omega
    by_cases h7 : k = 7
    · subst h7
      simp only [sumFrom, show (7 : Nat) + 1 = 8 from rfl, if_pos]
      rw [ih 0 0 (by omega)]
      have htake : (bit :: rest).take (8 - 7) = [bit] := by norm_num
      have hdrop : (bit :: rest).drop (8 - 7) = rest := by norm_num
      rw [htake, hdrop]
      have hsplit : ((chunks 8 rest).map byteVal).sum =
          byteVal (rest.take 8) + ((chunks 8 (rest.drop 8)).map byteVal).sum := by
        cases hr : rest with
        | nil => simp [chunks_nil, byteVal]
        | cons y ys =>
          rw [chunks_cons 8 (by omega) _ (by simp)]
          simp
      rw [hsplit]
      simp only [byteVal]
      cases bit <;> simp [byteVal]
    · have hk7 : k < 7 := by omega
      simp only [sumFrom, show ¬ (k + 1 = 8) from by omega, if_neg, ite_false]
      rw [ih (k + 1) _ (by omega)]
      have ht : (bit :: rest).take (8 - k) = bit :: rest.take (7 - k) := by
        rw [h8k]; rfl
      have hd : (bit :: rest).drop (8 - k) = rest.drop (7 - k) := by
        rw [h8k]; rfl
      have h8k1 : 8 - (k + 1) = 7 - k := by omega
      rw [ht, hd, h8k1]
      simp only [byteVal]
      have hpow : (2 : Nat) ^ (k + 1) = 2 ^ k * 2 := by rw [pow_succ]
      cases bit <;> simp [hpow] <;> ring

/-- The accumulator run over any bit stream from the fresh state reads
out exactly the specification checksum of the stream. -/
theorem checkSummer_spec (bits : List Bool) :
    (bits.foldl CheckSummer.add CheckSummer.new).get = specChecksum bits := by
  show (bits.foldl CheckSummer.add ⟨0, 0, 0⟩).get = _
  rw [foldl_add_get bits 0 0 0 (by omega) (by norm_num)]
  rw [sumFrom_eq_chunks bits 0 0 (by omega)]
  have hsplit : ((chunks 8 bits).map byteVal).sum =
      byteVal (bits.take 8) + ((chunks 8 (bits.drop 8)).map byteVal).sum := by
    cases hb : bits with
    | nil => simp [chunks_nil, byteVal]
    | cons y ys =>
      rw [chunks_cons 8 (by omega) _ (by simp)]
      simp
  unfold specChecksum
  rw [hsplit]
  norm_num

theorem fold_bits_eq :
    ∀ (data : List Bool) (g : FuseBuilder),
      data.foldl (fun (b : FuseBuilder) (bit : Bool) =>
        ⟨b.buf ++ [bitChar bit], b.checksum.add bit, b.idx + 1⟩) g =
      ⟨g.buf ++ data.map bitChar, data.foldl CheckSummer.add g.checksum,
        g.idx + data.length⟩ := by
  intro data
  induction data with
  | nil => intro g; simp
  | cons bit rest ih =>
    intro g
    simp only [List.foldl_cons, ih, List.map_cons, List.length_cons,
      FuseBuilder.mk.injEq]
    refine ⟨by simp, trivial, by omega⟩

theorem addIter_eq (fb : FuseBuilder) (data : List Bool) :
    fb.addIter data =
      ⟨fb.buf ++ line fb.idx data,
       data.foldl CheckSummer.add fb.checksum, fb.idx + data.length⟩ := by
  simp only [FuseBuilder.addIter, fold_bits_eq, line, FuseBuilder.mk.injEq]
  refine ⟨by simp [List.append_assoc], trivial, trivial⟩

theorem skipIter_eq (fb : FuseBuilder) (data : List Bool) :
    fb.skipIter data =
      ⟨fb.buf, data.foldl CheckSummer.add fb.checksum, fb.idx + data.length⟩ := by
  unfold FuseBuilder.skipIter
  induction data generalizing fb with
  | nil => simp
  | cons bit rest ih =>
    simp only [List.foldl_cons, List.length_cons]
    rw [ih]
    simp only [List.foldl_cons, FuseBuilder.mk.injEq]
    refine ⟨trivial, trivial, by omega⟩

theorem processRows_eq (d : List Bool → Bool) :
    ∀ (rows : List (List Bool)) (fb : FuseBuilder),
      processRows d fb rows =
        ⟨fb.buf ++ matrixBuf d fb.idx rows,
         rows.flatten.foldl CheckSummer.add fb.checksum,
         fb.idx + rows.flatten.length⟩ := by
  intro rows
  induction rows with
  | nil => intro fb; simp [processRows, matrixBuf]
  | cons r rs ih =>
    intro fb
    simp only [processRows, List.foldl_cons] at *
    by_cases hd : d r
    · rw [if_pos hd]
      rw [ih]
      rw [addIter_eq]
      simp [matrixBuf, hd, List.foldl_append, List.append_assoc, Nat.add_assoc]
    · rw [if_neg hd]
      rw [ih]
      rw [skipIter_eq]
      simp [matrixBuf, hd, List.foldl_append, List.append_assoc, Nat.add_assoc]

theorem matrixBuf_skip_replicate (d : List Bool → Bool) (r : List Bool)
    (hd : d r = false) :
    ∀ (k idx : Nat), matrixBuf d idx (List.replicate k r) = [] := by
  intro k
  induction k with
  | zero => intro idx; simp [matrixBuf]
  | succ k ih =>
    intro idx
    simp only [List.replicate_succ, matrixBuf, hd, Bool.false_eq_true,
      if_neg, ite_false, List.nil_append, not_false_iff]
    exact ih _

theorem charSum_matrixBuf_replicate (d : List Bool → Bool) (r : List Bool)
    (hd : d r = true) :
    ∀ (k idx : Nat),
      charSum (matrixBuf d idx (List.replicate k r)) = lineSumsAux r k idx := by
  intro k
  induction k with
  | zero => intro idx; simp [matrixBuf, lineSumsAux, charSum]
  | succ k ih =>
    intro idx
    simp only [List.replicate_succ, matrixBuf, hd, if_pos, ite_true,
      lineSumsAux]
    rw [charSum_append, ih]

/-- The specification checksum of a stream of 8q zero bits followed by
a short rest is the specification checksum of the rest. -/
theorem specChecksum_replicate_false_append (q : Nat) (rest : List Bool) :
    specChecksum (List.replicate (q * 8) false ++ rest) = specChecksum rest := by
  unfold specChecksum
  rw [chunks_append_multiple 8 (by omega) false q rest]
  simp only [List.map_append, List.map_replicate, List.sum_append]
  have hb : byteVal (List.replicate 8 false) = 0 := by decide
  rw [hb]
  simp [List.sum_replicate]

/-- The specification checksum of a stream of 8q one bits followed by
a short rest: each full byte contributes 255. -/
theorem specChecksum_replicate_true_append (q : Nat) (rest : List Bool) :
    specChecksum (List.replicate (q * 8) true ++ rest) =
      (q * 255 + ((chunks 8 rest).map byteVal).sum) % 65536 := by
  unfold specChecksum
  rw [chunks_append_multiple 8 (by omega) true q rest]
  simp only [List.map_append, List.map_replicate, List.sum_append]
  have hb : byteVal (List.replicate 8 true) = 255 := by decide
  rw [hb]
  simp [List.sum_replicate, smul_eq_mul]

theorem row_len_pos (c : Chip) : 0 < row_len c := by
  cases c <;> simp [row_len]

/-- Master decomposition: for any row decision the encoder output is
the body followed by the whole-file checksum line, and the body splits
into header, matrix lines and tail. -/
theorem makeJedecWith_decomp (d : List Bool → Bool) (c : Chip)
    (config : Config)
    (gal_fuses gal_xor gal_s1 gal_sig gal_ac1 gal_pt : List Bool)
    (gal_syn gal_ac0 : Bool) :
    makeJedecWith d c config gal_fuses gal_xor gal_s1 gal_sig gal_ac1 gal_pt
        gal_syn gal_ac0 =
      bodyChars d c config gal_fuses gal_xor gal_s1 gal_sig gal_ac1 gal_pt
          gal_syn gal_ac0
        ++ hexMin4 (charSum (bodyChars d c config gal_fuses gal_xor gal_s1
            gal_sig gal_ac1 gal_pt gal_syn gal_ac0)) ++ ['\n'] := by
  have hflat : (chunks (row_len c) gal_fuses).flatten = gal_fuses :=
    chunks_join (row_len c) (row_len_pos c) gal_fuses.length gal_fuses le_rfl
  have hbody : (fuseSectionState d c (headerChars c config) gal_fuses gal_xor
      gal_s1 gal_sig gal_ac1 gal_pt gal_syn gal_ac0).checksumLine.buf
        ++ starNlChars ++ ['\x03'] =
      bodyChars d c config gal_fuses gal_xor gal_s1 gal_sig gal_ac1 gal_pt
        gal_syn gal_ac0 := by
    unfold fuseSectionState bodyChars tailChars
    cases c <;>
      simp only [xorS1Bits, acBits, acLines, FuseBuilder.add,
        FuseBuilder.init, processRows_eq, addIter_eq, FuseBuilder.checksumLine,
        hflat, reduceCtorEq, not_false_iff, ite_true, ite_false,
        if_true, if_false, ne_eq, or_self, or_false, false_or,
        not_true_eq_false] <;>
      rw [show (specChecksum = fun bits =>
            (List.foldl CheckSummer.add CheckSummer.new bits).get) from
          funext fun bits => (checkSummer_spec bits).symm] <;>
      simp [List.foldl_append, List.append_assoc, Nat.add_assoc,
        List.length_append]
  unfold makeJedecWith
  simp only [hbody]

/-- The checksum accumulated by the fuse-section block is the fold of
the accumulator over exactly the main fuses, the XOR and S1 section
bits, the signature and the optional AC bits, in that order, for any
row decision and any initial buffer. -/
theorem fuseSectionState_checksum (d : List Bool → Bool) (c : Chip)
    (buf : List Char)
    (gal_fuses gal_xor gal_s1 gal_sig gal_ac1 gal_pt : List Bool)
    (gal_syn gal_ac0 : Bool) :
    (fuseSectionState d c buf gal_fuses gal_xor gal_s1 gal_sig gal_ac1 gal_pt
        gal_syn gal_ac0).checksum =
      (gal_fuses ++ xorS1Bits c gal_xor gal_s1 ++ gal_sig
        ++ acBits c gal_ac1 gal_pt gal_syn gal_ac0).foldl
          CheckSummer.add CheckSummer.new := by
  have hflat : (chunks (row_len c) gal_fuses).flatten = gal_fuses :=
    chunks_join (row_len c) (row_len_pos c) gal_fuses.length gal_fuses le_rfl
  unfold fuseSectionState
  cases c <;>
    simp [xorS1Bits, acBits, FuseBuilder.add, FuseBuilder.init,
      processRows_eq, addIter_eq, hflat, List.foldl_append,
      List.append_assoc]

end Galette.JW

namespace Galette.LIB

/-! ### Evaluation lemmas for all-zero fuse arrays, avoiding the
quadratic cost of index-by-index kernel evaluation of the row scans. -/
theorem get_replicate_zero :
    ∀ (n i : Nat), i < n → (List.replicate n (0 : Nat)).get? i = some 0 := by
  intro n
  induction n with
  | zero => intro i h; omega
  | succ n ih =>
    intro i h
    cases i with
    | zero => simp [List.replicate]
    | succ j =>
      simp only [List.replicate, List.get?]
      exact ih j (by omega)

theorem scanRow_replicate_zero (n : Nat) :
    ∀ (k b2 : Nat), b2 + k ≤ n →
      scanRow (List.replicate n 0) k b2 = some (0, b2 + k) := by
  intro k
  induction k with
  | zero => intro b2 h; simp [scanRow]
  | succ k ih =>
    intro b2 h
    unfold scanRow
    rw [get_replicate_zero n b2 (by omega)]
    simp only [ne_eq, not_true_eq_false, if_neg, ite_false]
    rw [show b2 + (k + 1) = (b2 + 1) + k from by omega]
    exact ih (b2 + 1) (by omega)

theorem rowsLoop_replicate_zero (n maxf : Nat) :
    ∀ (m : Nat) (buf : List Char) (bitnum : Nat),
      bitnum + m * (maxf + 1) ≤ n →
      rowsLoop (List.replicate n 0) maxf m buf bitnum bitnum 0 =
        some (buf, bitnum + m * (maxf + 1), bitnum + m * (maxf + 1), 0) := by
  intro m
  induction m with
  | zero => intro buf bitnum h; simp [rowsLoop]
  | succ m ih =>
    intro buf bitnum h
    rw [Nat.succ_mul] at h ⊢
    unfold rowsLoop
    rw [scanRow_replicate_zero n (maxf + 1) bitnum (by omega)]
    simp only [ne_eq, not_true_eq_false, if_neg, ite_false]
    rw [show bitnum + (m * (maxf + 1) + (maxf + 1)) =
        (bitnum + (maxf + 1)) + m * (maxf + 1) from by omega]
    exact ih _ _ (by omega)

/-- The row loop instance used on the 3200-fuse GAL20RA10 input: 80
all-zero rows of 40 fuses scan through without emitting. -/
theorem rowsLoop_c10 (buf : List Char) :
    rowsLoop (List.replicate 3200 0) 39 80 buf 0 0 0 =
      some (buf, 3200, 3200, 0) :=
  rowsLoop_replicate_zero 3200 39 80 buf 0 (by norm_num)

end Galette.LIB

namespace Galette

theorem chunks_zfuses :
    chunks (JW.row_len JW.Chip.GAL16V8) zfuses =
      List.replicate 64 (List.replicate 32 false) := by
  rw [show JW.row_len JW.Chip.GAL16V8 = 32 from rfl, zfuses,
    show (2048 : Nat) = 64 * 32 from by norm_num]
  exact chunks_replicate 32 (by omega) false 64

theorem chunks_ofuses :
    chunks (JW.row_len JW.Chip.GAL16V8) ofuses =
      List.replicate 64 (List.replicate 32 true) := by
  rw [show JW.row_len JW.Chip.GAL16V8 = 32 from rfl, ofuses,
    show (2048 : Nat) = 64 * 32 from by norm_num]
  exact chunks_replicate 32 (by omega) true 64

theorem zspec :
    JW.specChecksum (zfuses ++ JW.xorS1Bits JW.Chip.GAL16V8 zxor [] ++ zsig
      ++ JW.acBits JW.Chip.GAL16V8 zac1 zpt false false) = 0 := by
  have hx : JW.xorS1Bits JW.Chip.GAL16V8 zxor [] = zxor := by
    unfold JW.xorS1Bits
    rw [if_pos (by decide)]
  have ha : JW.acBits JW.Chip.GAL16V8 zac1 zpt false false =
      zac1 ++ zpt ++ [false, false] := by
    unfold JW.acBits
    rw [if_pos (by decide)]
  rw [hx, ha]
  have hmerge : (zfuses ++ zxor ++ zsig ++ (zac1 ++ zpt ++ [false, false])) =
      List.replicate (274 * 8) false ++ [false, false] := by
    simp only [zfuses, zxor, zsig, zac1, zpt, ← List.append_assoc,
      ← List.replicate_add]
  rw [hmerge, JW.specChecksum_replicate_false_append]
  decide

theorem ospec :
    JW.specChecksum (ofuses ++ JW.xorS1Bits JW.Chip.GAL16V8 oxor [] ++ osig
      ++ JW.acBits JW.Chip.GAL16V8 oac1 opt true true) = 4337 := by
  have hx : JW.xorS1Bits JW.Chip.GAL16V8 oxor [] = oxor := by
    unfold JW.xorS1Bits
    rw [if_pos (by decide)]
  have ha : JW.acBits JW.Chip.GAL16V8 oac1 opt true true =
      oac1 ++ opt ++ [true, true] := by
    unfold JW.acBits
    rw [if_pos (by decide)]
  rw [hx, ha]
  have hmerge : (ofuses ++ oxor ++ osig ++ (oac1 ++ opt ++ [true, true])) =
      List.replicate (274 * 8) true ++ [true, true] := by
    simp only [ofuses, oxor, osig, oac1, opt, ← List.append_assoc,
      ← List.replicate_add]
  rw [hmerge, JW.specChecksum_replicate_true_append]
  decide

/-- Claim C6: feeding booleans to the checksum accumulator packs them 8
to a byte with bit index 0 worth 1 and bit index 7 worth 128, folds each
completed byte into the running sum modulo 65536 with the partial byte
reset, and get returns the running sum plus the trailing partial byte
reduced to 16 bits, with no padding needed: the accumulator read out
after any bit stream equals the specification checksum of the stream. -/
theorem claimC6_thm (bits : List Bool) :
    (bits.foldl JW.CheckSummer.add JW.CheckSummer.new).get =
      JW.specChecksum bits :=
  JW.checkSummer_spec bits

/-- Claim C5: the lib.rs encoder does not return a typed
UnsupportedChipVariant error on an unrecognized chip tag; it hits the
panic arm of the chip-tag match (modelled by none), aborting the
process.  Evaluated at tag 5. -/
theorem claimC5_thm :
    LIB.make_jedec 5 cfg0 [] [] [] [] [] [] 0 0 = none := by decide

/-- Claim C7: for the GAL22V10 the XOR and S1 section bits are exactly
the alternation of the two 10-element arrays, and for every other chip
the XOR array is emitted alone. -/
theorem claimC7_thm (gal_xor gal_s1 : List Bool)
    (hx : gal_xor.length = 10) (hs : gal_s1.length = 10) :
    JW.xorS1Bits JW.Chip.GAL22V10 gal_xor gal_s1 =
      (List.zipWith (fun a b => [a, b]) gal_xor gal_s1).flatten ∧
    JW.xorS1Bits JW.Chip.GAL22V10 gal_xor gal_s1 =
      interleave gal_xor gal_s1 ∧
    (∀ c : JW.Chip, c ≠ JW.Chip.GAL22V10 →
      JW.xorS1Bits c gal_xor gal_s1 = gal_xor) := by
  refine ⟨?_, ?_, ?_⟩
  · unfold JW.xorS1Bits
    rw [if_neg (by simp)]
    exact interleave_eq_join_zipWith gal_xor gal_s1 (by omega)
  · unfold JW.xorS1Bits
    rw [if_neg (by simp)]
  · intro c hc
    unfold JW.xorS1Bits
    rw [if_pos hc]

/-- Witness for claim C7 at concrete 10-element arrays. -/
theorem claimC7_witness :
    JW.xorS1Bits JW.Chip.GAL22V10
        [true, false, true, false, true, false, true, false, true, false]
        [false, false, true, true, false, false, true, true, false, false] =
      [true, false, false, false, true, true, false, true, true, false,
        false, false, true, true, false, true, true, false, false, false] :=
  ((claimC7_thm
      [true, false, true, false, true, false, true, false, true, false]
      [false, false, true, true, false, false, true, true, false, false]
      rfl rfl).1).trans (by decide)

/-- Claim C3: for every input and every choice of which rows are
skipped, the row writer advances its offset by exactly the bit count of
the row whether it skips or emits, the running offset after the matrix
section equals the main fuse array length for any decision, and the
whole output decomposes so that everything after the matrix lines (the
XOR and S1 line, the signature line, the optional AC lines and the
checksum lines, with their star-L offsets) is a function of the inputs
alone, independent of the decision. -/
theorem claimC3_thm (d : List Bool → Bool) (c : JW.Chip) (cfg : Config)
    (buf : List Char)
    (gal_fuses gal_xor gal_s1 gal_sig gal_ac1 gal_pt : List Bool)
    (gal_syn gal_ac0 : Bool) :
    (∀ (fb : JW.FuseBuilder) (row : List Bool),
      (fb.skipIter row).idx = fb.idx + row.length ∧
      (fb.addIter row).idx = fb.idx + row.length) ∧
    (JW.processRows d (JW.FuseBuilder.init buf)
        (chunks (JW.row_len c) gal_fuses)).idx = gal_fuses.length ∧
    JW.makeJedecWith d c cfg gal_fuses gal_xor gal_s1 gal_sig gal_ac1 gal_pt
        gal_syn gal_ac0 =
      (JW.headerChars c cfg
          ++ JW.matrixBuf d 0 (chunks (JW.row_len c) gal_fuses)
          ++ JW.tailChars c gal_fuses gal_xor gal_s1 gal_sig gal_ac1 gal_pt
              gal_syn gal_ac0)
        ++ hexMin4 (charSum (JW.headerChars c cfg
            ++ JW.matrixBuf d 0 (chunks (JW.row_len c) gal_fuses)
            ++ JW.tailChars c gal_fuses gal_xor gal_s1 gal_sig gal_ac1 gal_pt
                gal_syn gal_ac0)) ++ ['\n'] := by
  refine ⟨?_, ?_, ?_⟩
  · intro fb row
    rw [JW.skipIter_eq, JW.addIter_eq]
    exact ⟨rfl, rfl⟩
  · rw [JW.processRows_eq]
    rw [chunks_join (JW.row_len c) (JW.row_len_pos c) gal_fuses.length
      gal_fuses le_rfl]
    simp [JW.FuseBuilder.init]
  · have h := JW.makeJedecWith_decomp d c cfg gal_fuses gal_xor gal_s1 gal_sig
      gal_ac1 gal_pt gal_syn gal_ac0
    rw [h]
    rfl

/-- Claim C2, amended: for every input, the fuse-section checksum (the
star-C value) does not depend on the row decision at all: for any two
decisions the accumulated checksum states coincide, and both read out
the specification checksum of every bit fed to the writer.  (The
whole-file checksum, by contrast, does change when a row line is
omitted; see the counterexample.) -/
theorem claimC2_thm (d₁ d₂ : List Bool → Bool) (c : JW.Chip)
    (buf₁ buf₂ : List Char)
    (gal_fuses gal_xor gal_s1 gal_sig gal_ac1 gal_pt : List Bool)
    (gal_syn gal_ac0 : Bool) :
    (JW.fuseSectionState d₁ c buf₁ gal_fuses gal_xor gal_s1 gal_sig gal_ac1
        gal_pt gal_syn gal_ac0).checksum =
      (JW.fuseSectionState d₂ c buf₂ gal_fuses gal_xor gal_s1 gal_sig gal_ac1
        gal_pt gal_syn gal_ac0).checksum ∧
    (JW.fuseSectionState d₁ c buf₁ gal_fuses gal_xor gal_s1 gal_sig gal_ac1
        gal_pt gal_syn gal_ac0).checksum.get =
      JW.specChecksum (gal_fuses ++ JW.xorS1Bits c gal_xor gal_s1 ++ gal_sig
        ++ JW.acBits c gal_ac1 gal_pt gal_syn gal_ac0) := by
  constructor
  · rw [JW.fuseSectionState_checksum, JW.fuseSectionState_checksum]
  · rw [JW.fuseSectionState_checksum]
    exact JW.checkSummer_spec _

/-- Claim C9: the star-C fuse checksum value written by make_jedec is
the specification checksum (modulo-65536 sum of the bits packed 8 per
byte) of exactly the main fuses, then the XOR and S1 section bits, then
the signature, then the AC1, PT, SYN and AC0 bits when the chip has
them, in that order and nothing else. -/
theorem claimC9_thm (c : JW.Chip) (cfg : Config)
    (gal_fuses gal_xor gal_s1 gal_sig gal_ac1 gal_pt : List Bool)
    (gal_syn gal_ac0 : Bool) :
    JW.make_jedec c cfg gal_fuses gal_xor gal_s1 gal_sig gal_ac1 gal_pt
        gal_syn gal_ac0 =
      JW.headerChars c cfg
        ++ JW.matrixBuf JW.rowDecision 0 (chunks (JW.row_len c) gal_fuses)
        ++ line gal_fuses.length (JW.xorS1Bits c gal_xor gal_s1)
        ++ line (gal_fuses.length + (JW.xorS1Bits c gal_xor gal_s1).length)
            gal_sig
        ++ JW.acLines c gal_ac1 gal_pt gal_syn gal_ac0
            (gal_fuses.length + (JW.xorS1Bits c gal_xor gal_s1).length
              + gal_sig.length)
        ++ '*' :: 'C' :: (hexMin4 (JW.specChecksum (gal_fuses
              ++ JW.xorS1Bits c gal_xor gal_s1 ++ gal_sig
              ++ JW.acBits c gal_ac1 gal_pt gal_syn gal_ac0)) ++ ['\n'])
        ++ starNlChars ++ ['\x03']
        ++ hexMin4 (charSum (JW.bodyChars JW.rowDecision c cfg gal_fuses
            gal_xor gal_s1 gal_sig gal_ac1 gal_pt gal_syn gal_ac0))
        ++ ['\n'] := by
  have h := JW.makeJedecWith_decomp JW.rowDecision c cfg gal_fuses gal_xor
    gal_s1 gal_sig gal_ac1 gal_pt gal_syn gal_ac0
  rw [JW.make_jedec, h]
  simp [JW.bodyChars, JW.tailChars, List.append_assoc]

/-- Claim C8: the AC1, PT, SYN and AC0 fields are emitted as four
separate lines in exactly that order directly after the signature line
for the GAL16V8 and the GAL20V8, and are entirely absent for the
GAL22V10 and the GAL20RA10. -/
theorem claimC8_thm (cfg : Config)
    (gal_fuses gal_xor gal_s1 gal_sig gal_ac1 gal_pt : List Bool)
    (gal_syn gal_ac0 : Bool) (o : Nat) :
    JW.acLines JW.Chip.GAL16V8 gal_ac1 gal_pt gal_syn gal_ac0 o =
      line o gal_ac1 ++ line (o + gal_ac1.length) gal_pt
        ++ line (o + gal_ac1.length + gal_pt.length) [gal_syn]
        ++ line (o + gal_ac1.length + gal_pt.length + 1) [gal_ac0] ∧
    JW.acLines JW.Chip.GAL20V8 gal_ac1 gal_pt gal_syn gal_ac0 o =
      line o gal_ac1 ++ line (o + gal_ac1.length) gal_pt
        ++ line (o + gal_ac1.length + gal_pt.length) [gal_syn]
        ++ line (o + gal_ac1.length + gal_pt.length + 1) [gal_ac0] ∧
    JW.acLines JW.Chip.GAL22V10 gal_ac1 gal_pt gal_syn gal_ac0 o = [] ∧
    JW.acLines JW.Chip.GAL20RA10 gal_ac1 gal_pt gal_syn gal_ac0 o = [] ∧
    (∀ c : JW.Chip,
      JW.make_jedec c cfg gal_fuses gal_xor gal_s1 gal_sig gal_ac1 gal_pt
          gal_syn gal_ac0 =
        JW.headerChars c cfg
          ++ JW.matrixBuf JW.rowDecision 0 (chunks (JW.row_len c) gal_fuses)
          ++ line gal_fuses.length (JW.xorS1Bits c gal_xor gal_s1)
          ++ line (gal_fuses.length + (JW.xorS1Bits c gal_xor gal_s1).length)
              gal_sig
          ++ JW.acLines c gal_ac1 gal_pt gal_syn gal_ac0
              (gal_fuses.length + (JW.xorS1Bits c gal_xor gal_s1).length
                + gal_sig.length)
          ++ '*' :: 'C' :: (hexMin4 (JW.specChecksum (gal_fuses
                ++ JW.xorS1Bits c gal_xor gal_s1 ++ gal_sig
                ++ JW.acBits c gal_ac1 gal_pt gal_syn gal_ac0)) ++ ['\n'])
          ++ starNlChars ++ ['\x03']
          ++ hexMin4 (charSum (JW.bodyChars JW.rowDecision c cfg gal_fuses
              gal_xor gal_s1 gal_sig gal_ac1 gal_pt gal_syn gal_ac0))
          ++ ['\n']) := by
  refine ⟨?_, ?_, ?_, ?_, ?_⟩
  · unfold JW.acLines
    rw [if_pos (by decide)]
  · unfold JW.acLines
    rw [if_pos (by decide)]
  · unfold JW.acLines
    rw [if_neg (by decide)]
  · unfold JW.acLines
    rw [if_neg (by decide)]
  · intro c
    have h := JW.makeJedecWith_decomp JW.rowDecision c cfg gal_fuses gal_xor
      gal_s1 gal_sig gal_ac1 gal_pt gal_syn gal_ac0
    rw [JW.make_jedec, h]
    simp [JW.bodyChars, JW.tailChars, List.append_assoc]

/-- Claim C1, amended: the trailing whole-file checksum line appended
by the jedec_writer encoder is the plain (unmasked) sum of the byte
values of every byte emitted so far, from the start-of-text byte 0x02
through the end-of-text byte 0x03 inclusive, formatted as lowercase hex
zero padded to a minimum of four digits (so it exceeds four digits
whenever the sum exceeds 0xffff), followed by a newline and with no
star prefix; only the lib.rs encoder masks the sum to 16 bits. -/
theorem claimC1_thm (c : JW.Chip) (cfg : Config)
    (gal_fuses gal_xor gal_s1 gal_sig gal_ac1 gal_pt : List Bool)
    (gal_syn gal_ac0 : Bool) :
    JW.make_jedec c cfg gal_fuses gal_xor gal_s1 gal_sig gal_ac1 gal_pt
        gal_syn gal_ac0 =
      JW.bodyChars JW.rowDecision c cfg gal_fuses gal_xor gal_s1 gal_sig
          gal_ac1 gal_pt gal_syn gal_ac0
        ++ hexMin4 (charSum (JW.bodyChars JW.rowDecision c cfg gal_fuses
            gal_xor gal_s1 gal_sig gal_ac1 gal_pt gal_syn gal_ac0))
        ++ ['\n'] ∧
    (JW.bodyChars JW.rowDecision c cfg gal_fuses gal_xor gal_s1 gal_sig
        gal_ac1 gal_pt gal_syn gal_ac0).head? = some '\x02' ∧
    (JW.bodyChars JW.rowDecision c cfg gal_fuses gal_xor gal_s1 gal_sig
        gal_ac1 gal_pt gal_syn gal_ac0).getLast? = some '\x03' := by
  refine ⟨JW.makeJedecWith_decomp _ c cfg _ _ _ _ _ _ _ _, ?_, ?_⟩
  · unfold JW.bodyChars JW.headerChars
    rw [show stxChars = '\x02' :: ['\n'] from rfl]
    simp
  · unfold JW.bodyChars JW.tailChars
    simp only [← List.append_assoc, ← List.cons_append]
    rw [List.getLast?_concat]

/-- Counterexample to claim C1 as stated: on the all-ones GAL16V8 input
the byte sum of the emitted file exceeds 0xffff, so the trailing line
the encoder appends is not the 16-bit-masked 4-digit hex value: the
unmasked sum is printed with five hex digits. -/
theorem claimC1_counterexample :
    JW.make_jedec JW.Chip.GAL16V8 cfg0 ofuses oxor [] osig oac1 opt
        true true ≠
      JW.bodyChars JW.rowDecision JW.Chip.GAL16V8 cfg0 ofuses oxor [] osig
          oac1 opt true true
        ++ hexMin4 (charSum (JW.bodyChars JW.rowDecision JW.Chip.GAL16V8 cfg0
            ofuses oxor [] osig oac1 opt true true) % 65536)
        ++ ['\n'] := by
  have hsum : 65535 < charSum (JW.bodyChars JW.rowDecision JW.Chip.GAL16V8
      cfg0 ofuses oxor [] osig oac1 opt true true) := by
    unfold JW.bodyChars
    rw [chunks_ofuses]
    simp only [charSum_append]
    rw [JW.charSum_matrixBuf_replicate JW.rowDecision (List.replicate 32 true)
      (by decide) 64 0]
    have hls : 65535 < JW.lineSumsAux (List.replicate 32 true) 64 0 := by
      decide
    omega
  intro h
  unfold JW.make_jedec at h
  rw [JW.makeJedecWith_decomp] at h
  rw [List.append_assoc, List.append_assoc] at h
  have h2 := List.append_cancel_left h
  have h3 := congrArg List.length h2
  simp only [List.length_append, List.length_cons, List.length_nil] at h3
  have h4 := hexMin4_length_of_ge (v := charSum (JW.bodyChars JW.rowDecision
    JW.Chip.GAL16V8 cfg0 ofuses oxor [] osig oac1 opt true true)) (by omega)
  have h5 := hexMin4_length_of_lt (v := charSum (JW.bodyChars JW.rowDecision
    JW.Chip.GAL16V8 cfg0 ofuses oxor [] osig oac1 opt true true) % 65536)
    (Nat.mod_lt _ (by omega))
  omega

set_option maxRecDepth 40000 in
/-- Counterexample to claim C2 as stated: on the all-zero GAL16V8 input
the whole-file checksum line of the output with the skip optimization
differs from the one of the output with every row force-emitted: the
omitted star-L lines change the byte sum, so only the fuse checksum is
invariant, not the whole-file checksum. -/
theorem claimC2_counterexample :
    (JW.makeJedecWith JW.rowDecision JW.Chip.GAL16V8 cfg0 zfuses zxor [] zsig
        zac1 zpt false false).drop
      (JW.bodyChars JW.rowDecision JW.Chip.GAL16V8 cfg0 zfuses zxor [] zsig
        zac1 zpt false false).length ≠
    (JW.makeJedecWith (fun _ => true) JW.Chip.GAL16V8 cfg0 zfuses zxor [] zsig
        zac1 zpt false false).drop
      (JW.bodyChars (fun _ => true) JW.Chip.GAL16V8 cfg0 zfuses zxor [] zsig
        zac1 zpt false false).length := by
  rw [JW.makeJedecWith_decomp, JW.makeJedecWith_decomp]
  rw [List.append_assoc, List.append_assoc, List.drop_left, List.drop_left]
  unfold JW.bodyChars
  rw [chunks_zfuses]
  rw [JW.matrixBuf_skip_replicate JW.rowDecision (List.replicate 32 false)
    (by decide) 64 0]
  simp only [charSum_append]
  rw [JW.charSum_matrixBuf_replicate (fun _ => true) (List.replicate 32 false)
    rfl 64 0]
  unfold JW.tailChars
  rw [zspec]
  simp only [zfuses, List.length_replicate]
  decide

set_option maxRecDepth 100000 in
/-- Claim C4 fails on the code: no ArrayLengthMismatch error exists
anywhere in the source.  On a GAL16V8 with a 100-entry main fuse array
(2048 expected), the lib.rs encoder performs an out-of-bounds slice
index and panics (modelled by none), while the jedec_writer encoder
silently accepts the wrong-length array and still produces a JEDEC
text starting with the start-of-text byte. -/
theorem claimC4_thm :
    LIB.make_jedec 1 cfg0 (List.replicate 100 0) (List.replicate 8 0) []
        (List.replicate 64 0) (List.replicate 8 0) (List.replicate 64 0)
        0 0 = none ∧
    (JW.make_jedec JW.Chip.GAL16V8 cfg0 (List.replicate 100 false)
        (List.replicate 8 false) [] (List.replicate 64 false)
        (List.replicate 8 false) (List.replicate 64 false) false
        false).take 2 = ['\x02', '\n'] := by
  constructor
  · decide
  · decide

theorem chunks_c10 :
    chunks (JW.row_len JW.Chip.GAL20RA10) (List.replicate 3200 false) =
      List.replicate 80 (List.replicate 40 false) := by
  rw [show JW.row_len JW.Chip.GAL20RA10 = 40 from rfl,
    show (3200 : Nat) = 80 * 40 from by norm_num]
  exact chunks_replicate 40 (by omega) false 80

theorem spec_c10 :
    JW.specChecksum (List.replicate 3200 false
      ++ JW.xorS1Bits JW.Chip.GAL20RA10 (true :: List.replicate 9 false)
          (List.replicate 10 false)
      ++ List.replicate 64 false
      ++ JW.acBits JW.Chip.GAL20RA10 (List.replicate 8 false)
          (List.replicate 64 false) false false) = 1 := by
  have hx : JW.xorS1Bits JW.Chip.GAL20RA10 (true :: List.replicate 9 false)
      (List.replicate 10 false) = true :: List.replicate 9 false := by
    unfold JW.xorS1Bits
    rw [if_pos (by decide)]
  have ha : JW.acBits JW.Chip.GAL20RA10 (List.replicate 8 false)
      (List.replicate 64 false) false false = [] := by
    unfold JW.acBits
    rw [if_neg (by decide)]
  rw [hx, ha, List.append_nil]
  have hmerge : List.replicate 3200 false ++ (true :: List.replicate 9 false)
      ++ List.replicate 64 false =
      List.replicate (400 * 8) false
        ++ (true :: (List.replicate 9 false ++ List.replicate 64 false)) := by
    rw [show (400 * 8 : Nat) = 3200 from by norm_num]
    simp only [List.append_assoc, List.cons_append]
  rw [hmerge, JW.specChecksum_replicate_false_append]
  decide

set_option maxRecDepth 100000 in
/-- Claim C10: the two encoders diverge on an identical in-contract
input.  On the GAL20RA10 with the profile-sized arrays (3200 main
fuses, 10 XOR, 10 S1, 64 signature, 8 AC1, 64 PT) whose only set bit
is XOR index 0, the jedec_writer encoder computes the real fuse
checksum (star-C 0001) while the lib.rs encoder hard-codes zero for
every chip other than the GAL16V8 (star-C 0000), so the two output
strings differ. -/
theorem claimC10_thm :
    LIB.make_jedec 4 cfg0 (List.replicate 3200 0) (1 :: List.replicate 9 0)
        (List.replicate 10 0) (List.replicate 64 0) (List.replicate 8 0)
        (List.replicate 64 0) 0 0 ≠
      some (JW.make_jedec JW.Chip.GAL20RA10 cfg0 (List.replicate 3200 false)
        (true :: List.replicate 9 false) (List.replicate 10 false)
        (List.replicate 64 false) (List.replicate 8 false)
        (List.replicate 64 false) false false) := by
  unfold JW.make_jedec
  rw [JW.makeJedecWith_decomp]
  unfold JW.bodyChars
  rw [chunks_c10]
  rw [JW.matrixBuf_skip_replicate JW.rowDecision (List.replicate 40 false)
    (by decide) 80 0]
  unfold JW.tailChars
  rw [spec_c10]
  simp only [List.length_replicate]
  unfold LIB.make_jedec
  rw [if_neg (by norm_num), if_neg (by norm_num), if_neg (by norm_num),
    if_pos rfl]
  unfold LIB.go
  rw [LIB.rowsLoop_c10]
  decide

end Galette
